import Mathlib

/-!
Verification development for a command-relay bridge server (src/index.js).

The file contains two near-duplicate variants of the same program.  We embed
the relay core of variant 1 (lines 11-46 and 116-130) and, for the
equivalence claim, the relay core of variant 2 (lines 201-257).

State: a list `commandQueue` of command records and a counter
`commandIdCounter`.  Operations: `enqueueCommand`, the poll endpoint
(claim pending records), the result endpoint (resolve a record), and the
per-tick body of `waitForResult`'s 200 ms polling interval.
-/

/-- A JSON-like JavaScript value, as passed through `args`, `result` and
`error` fields of the relay. -/
inductive JSVal : Type where
  | null : JSVal
  | undefined : JSVal
  | bool : Bool → JSVal
  | num : Int → JSVal
  | str : String → JSVal
  | obj : List (String × JSVal) → JSVal

/-- JavaScript truthiness of a value, as used by `error ? { error } : result`
and `if (result && result.error)`. -/
def jsTruthy : JSVal → Bool
  | JSVal.null => false
  | JSVal.undefined => false
  | JSVal.bool b => b
  | JSVal.num n => n != 0
  | JSVal.str s => s != ""
  | JSVal.obj _ => true

/-- JavaScript property access `v.key` on an object value (first binding of
the key); non-objects yield `undefined`. -/
def jsGet (v : JSVal) (key : String) : JSVal :=
  match v with
  | JSVal.obj fields =>
    match fields.find? (fun p => p.1 == key) with
    | some p => p.2
    | none => JSVal.undefined
  | _ => JSVal.undefined

def errorKey : String := "error"
def sourceKey : String := "source"
def okKey : String := "ok"
def pathKey : String := "path"
def emptyStr : String := ""
def outputKey : String := "output"
def noSourceText : String := "No source found"
def getScriptTool : String := "get_script"
def runScriptTool : String := "run_script"

/-- `status` field of a command record: "pending", "sent" or "done". -/
inductive Status : Type where
  | pending : Status
  | sent : Status
  | done : Status
deriving DecidableEq, Repr

/-- A command record `{ id, tool, args, status, result }`. -/
structure Command : Type where
  id : Nat
  tool : String
  args : JSVal
  status : Status
  result : JSVal

/-- The shared mutable state: `commandQueue` and `commandIdCounter`. -/
structure RelayState : Type where
  commandQueue : List Command
  commandIdCounter : Nat

/-- The initial state: empty queue, counter 0. -/
def initState : RelayState := ⟨[], 0⟩

/-- `enqueueCommand(tool, args)`: increment the counter, append a `pending`
record with the new id and `result: null`, return the id. -/
def enqueueCommand (s : RelayState) (tool : String) (args : JSVal) :
    Nat × RelayState :=
  let id := s.commandIdCounter + 1
  (id, ⟨s.commandQueue ++ [⟨id, tool, args, Status.pending, JSVal.null⟩], id⟩)

/-- `app.get("/studio/poll")`: select the records with status `pending`,
mutate each of them to `sent` (in place, so the serialized response also
shows `sent`), and return them.  First component: the JSON response list;
second: the updated state. -/
def pollEndpoint (s : RelayState) : List Command × RelayState :=
  let claimed := (s.commandQueue.filter (fun c => decide (c.status = Status.pending))).map
    (fun c => { c with status := Status.sent })
  (claimed,
   ⟨s.commandQueue.map
      (fun c => if c.status = Status.pending then { c with status := Status.sent } else c),
    s.commandIdCounter⟩)

/-- Mutate the first element satisfying `p` (the record `find` located),
leave the rest unchanged. -/
def updateFirst (p : Command → Bool) (f : Command → Command) :
    List Command → List Command
  | [] => []
  | c :: cs => if p c then f c :: cs else c :: updateFirst p f cs

/-- The outcome stored by the result endpoint: `error ? { error } : result`. -/
def storedOutcome (result error : JSVal) : JSVal :=
  if jsTruthy error then JSVal.obj [(errorKey, error)] else result

/-- `app.post("/studio/result")` with body `{ id, result, error }`: if a
record with this id is found, set its status to `done` and its result to
`error ? { error } : result`; always respond `{ ok: true }`. -/
def resultEndpoint (s : RelayState) (id : Nat) (result error : JSVal) :
    JSVal × RelayState :=
  (JSVal.obj [(okKey, JSVal.bool true)],
   { s with
     commandQueue :=
       updateFirst (fun c => c.id == id)
         (fun c => { c with status := Status.done, result := storedOutcome result error })
         s.commandQueue })

/-- Removal of a record from the live set:
`commandQueue = commandQueue.filter((c) => c.id !== id)`. -/
def removeCommand (s : RelayState) (id : Nat) : RelayState :=
  ⟨s.commandQueue.filter (fun c => c.id != id), s.commandIdCounter⟩

def notFoundMsg : String := "Command not found"
def timeoutMsg1 : String := "Timeout - Is the Roblox Studio plugin running?"
def timeoutMsg2 : String := "Timeout waiting for Roblox Studio response. Is the plugin running?"

/-- What one firing of `waitForResult`'s interval callback does to the
awaiting promise: reject with a message, resolve with the record's result,
or keep waiting. -/
inductive WaitStep : Type where
  | rejected : String → WaitStep
  | resolved : JSVal → WaitStep
  | waiting : WaitStep

/-- One firing of the 200 ms interval callback in `waitForResult` (variant 1),
with `tOut` the value of `Date.now() - start > timeoutMs` at this firing:
if no record has the id, reject "Command not found"; if the record is `done`,
remove it and resolve with its result (the promise settles on the first call,
so the fall-through timeout check cannot override this); otherwise, if the
timeout has elapsed, remove the record and reject with the timeout message;
otherwise keep waiting. -/
def waitTick (s : RelayState) (id : Nat) (tOut : Bool) : WaitStep × RelayState :=
  match s.commandQueue.find? (fun c => c.id == id) with
  | none => (WaitStep.rejected notFoundMsg, s)
  | some cmd =>
    if cmd.status = Status.done then
      (WaitStep.resolved cmd.result, removeCommand s id)
    else if tOut then
      (WaitStep.rejected timeoutMsg1, removeCommand s id)
    else
      (WaitStep.waiting, s)

/-- The polling interval of `waitForResult`, in milliseconds. -/
def pollIntervalMs : Nat := 200

/-- `waitForResult(id, timeoutMs)` run in isolation (no interleaved state
changes): iterate `waitTick` at ticks `k, k+1, ...` (tick `j` fires at
elapsed time `pollIntervalMs * j`), stopping when the promise settles.
Returns the settling step, the tick index at which it happened, and the
state at that point; `none` when the fuel runs out first. -/
def waitLoop (s : RelayState) (id timeoutMs k : Nat) :
    Nat → Option (WaitStep × Nat × RelayState)
  | 0 => none
  | fuel + 1 =>
    match waitTick s id (decide (pollIntervalMs * k > timeoutMs)) with
    | (WaitStep.waiting, s') => waitLoop s' id timeoutMs (k + 1) fuel
    | (step, s') => some (step, k, s')

/-- The tail of `studioCall` after `await waitForResult(id)` resolved with
`result`: `if (result && result.error) throw new Error(result.error)`,
otherwise return the result. -/
def studioCallFinish (result : JSVal) : Except JSVal JSVal :=
  if jsTruthy result && jsTruthy (jsGet result errorKey) then
    Except.error (jsGet result errorKey)
  else
    Except.ok result

/-- The `get_script` tool handler's response mapping:
`result.source ?? "No source found"`. -/
def getScriptText (result : JSVal) : JSVal :=
  match jsGet result sourceKey with
  | JSVal.null => JSVal.str noSourceText
  | JSVal.undefined => JSVal.str noSourceText
  | v => v

/-! ### Variant 2 (lines 201-257 of src/index.js) -/

/-- Variant 2's `enqueueCommand` (lines 209-214): identical except for an
intermediate `const cmd` binding. -/
def enqueueCommand2 (s : RelayState) (tool : String) (args : JSVal) :
    Nat × RelayState :=
  let id := s.commandIdCounter + 1
  let cmd : Command := ⟨id, tool, args, Status.pending, JSVal.null⟩
  (id, ⟨s.commandQueue ++ [cmd], id⟩)

/-- Variant 2's poll endpoint (lines 241-246). -/
def pollEndpoint2 (s : RelayState) : List Command × RelayState :=
  let claimed := (s.commandQueue.filter (fun c => decide (c.status = Status.pending))).map
    (fun c => { c with status := Status.sent })
  (claimed,
   ⟨s.commandQueue.map
      (fun c => if c.status = Status.pending then { c with status := Status.sent } else c),
    s.commandIdCounter⟩)

/-- Variant 2's result endpoint (lines 249-257). -/
def resultEndpoint2 (s : RelayState) (id : Nat) (result error : JSVal) :
    JSVal × RelayState :=
  (JSVal.obj [(okKey, JSVal.bool true)],
   { s with
     commandQueue :=
       updateFirst (fun c => c.id == id)
         (fun c => { c with status := Status.done, result := storedOutcome result error })
         s.commandQueue })

/-- One interval firing of variant 2's `waitForResult` (lines 216-234): the
same logic as variant 1 but with a different timeout rejection message. -/
def waitTick2 (s : RelayState) (id : Nat) (tOut : Bool) : WaitStep × RelayState :=
  match s.commandQueue.find? (fun c => c.id == id) with
  | none => (WaitStep.rejected notFoundMsg, s)
  | some cmd =>
    if cmd.status = Status.done then
      (WaitStep.resolved cmd.result, removeCommand s id)
    else if tOut then
      (WaitStep.rejected timeoutMsg2, removeCommand s id)
    else
      (WaitStep.waiting, s)

/-! ### Operation traces -/

/-- One atomic operation on the shared state, as serialized by the
single-threaded event loop. -/
inductive Op : Type where
  | enqueue : String → JSVal → Op
  | poll : Op
  | resolveOp : Nat → JSVal → JSVal → Op
  | waitTickOp : Nat → Bool → Op

/-- The state effect of one operation. -/
def applyOp (s : RelayState) : Op → RelayState
  | Op.enqueue tool args => (enqueueCommand s tool args).2
  | Op.poll => (pollEndpoint s).2
  | Op.resolveOp id r e => (resultEndpoint s id r e).2
  | Op.waitTickOp id t => (waitTick s id t).2

/-- The ids returned by the `enqueueCommand` calls of a trace, in order. -/
def enqueueIds (s : RelayState) : List Op → List Nat
  | [] => []
  | op :: ops =>
    match op with
    | Op.enqueue tool args =>
      (enqueueCommand s tool args).1 :: enqueueIds (applyOp s op) ops
    | _ => enqueueIds (applyOp s op) ops

/-- The response lists returned by the poll-endpoint calls of a trace,
in order. -/
def pollOuts (s : RelayState) : List Op → List (List Command)
  | [] => []
  | op :: ops =>
    match op with
    | Op.poll => (pollEndpoint s).1 :: pollOuts (applyOp s op) ops
    | _ => pollOuts (applyOp s op) ops

/-- Status of the (first) live record with a given id. -/
def statusOf (s : RelayState) (id : Nat) : Option Status :=
  (s.commandQueue.find? (fun c => c.id == id)).map (fun c => c.status)

/-- Rank of a status in the lifecycle order pending → sent → done. -/
def statusRank : Status → Nat
  | Status.pending => 0
  | Status.sent => 1
  | Status.done => 2

/-- The ids currently in the queue, in queue order. -/
def queueIds (s : RelayState) : List Nat :=
  s.commandQueue.map (fun c => c.id)

/-- Reachable-state invariant: queue ids strictly increase along the queue
(creation order) and never exceed the counter. -/
def QueueInv (s : RelayState) : Prop :=
  List.Pairwise (· < ·) (queueIds s) ∧ ∀ i ∈ queueIds s, i ≤ s.commandIdCounter

/-- No live record with this id is still pending, and the id can no longer
be handed out again by `enqueueCommand`. -/
def noPending (s : RelayState) (id : Nat) : Prop :=
  id ≤ s.commandIdCounter
  ∧ ∀ c ∈ s.commandQueue, c.id = id → c.status ≠ Status.pending

/-- Sample state: one pending record with id 1. -/
def wPending : RelayState :=
  ⟨[⟨1, runScriptTool, JSVal.null, Status.pending, JSVal.null⟩], 1⟩

/-- Sample state: one done record with id 1 carrying a numeric result. -/
def wDone : RelayState :=
  ⟨[⟨1, runScriptTool, JSVal.null, Status.done, JSVal.num 2⟩], 1⟩

/-! ### Helper lemmas -/

lemma commandIdCounter_applyOp (s : RelayState) (op : Op) :
    s.commandIdCounter ≤ (applyOp s op).commandIdCounter := by
  cases op with
  | enqueue t a => simp [applyOp, enqueueCommand]
  | poll => simp [applyOp, pollEndpoint]
  | resolveOp id r e => simp [applyOp, resultEndpoint]
  | waitTickOp id t =>
    simp only [applyOp, waitTick]
    cases h : s.commandQueue.find? (fun c => c.id == id) with
    | none => simp
    | some cmd =>
      by_cases hd : cmd.status = Status.done
      · simp [hd, removeCommand]
      · cases t <;> simp [hd, removeCommand]

lemma enqueueIds_counter_lt (ops : List Op) :
    ∀ s : RelayState, ∀ x ∈ enqueueIds s ops, s.commandIdCounter < x := by
  induction ops with
  | nil => intro s x hx; simp [enqueueIds] at hx
  | cons op ops ih =>
    intro s x hx
    cases op with
    | enqueue t a =>
      simp only [enqueueIds, List.mem_cons] at hx
      rcases hx with hx | hx
      · subst hx; simp [enqueueCommand]
      · have h1 := ih (applyOp s (Op.enqueue t a)) x hx
        have h2 := commandIdCounter_applyOp s (Op.enqueue t a)
        omega
    | poll =>
      simp only [enqueueIds] at hx
      exact lt_of_le_of_lt (commandIdCounter_applyOp s Op.poll) (ih _ x hx)
    | resolveOp id r e =>
      simp only [enqueueIds] at hx
      exact lt_of_le_of_lt (commandIdCounter_applyOp s (Op.resolveOp id r e)) (ih _ x hx)
    | waitTickOp id t =>
      simp only [enqueueIds] at hx
      exact lt_of_le_of_lt (commandIdCounter_applyOp s (Op.waitTickOp id t)) (ih _ x hx)

lemma enqueueIds_pairwise (ops : List Op) :
    ∀ s : RelayState, List.Pairwise (· < ·) (enqueueIds s ops) := by
  induction ops with
  | nil => intro s; simp [enqueueIds]
  | cons op ops ih =>
    intro s
    cases op with
    | enqueue t a =>
      simp only [enqueueIds]
      refine List.pairwise_cons.2 ⟨?_, ih _⟩
      intro x hx
      have h1 := enqueueIds_counter_lt ops (applyOp s (Op.enqueue t a)) x hx
      have h2 : (applyOp s (Op.enqueue t a)).commandIdCounter = s.commandIdCounter + 1 := rfl
      have h3 : (enqueueCommand s t a).1 = s.commandIdCounter + 1 := rfl
      omega
    | poll => simpa only [enqueueIds] using ih (applyOp s Op.poll)
    | resolveOp id r e => simpa only [enqueueIds] using ih (applyOp s (Op.resolveOp id r e))
    | waitTickOp id t => simpa only [enqueueIds] using ih (applyOp s (Op.waitTickOp id t))

lemma updateFirst_of_not_found (p : Command → Bool) (f : Command → Command) :
    ∀ l : List Command, l.find? p = none → updateFirst p f l = l := by
  intro l
  induction l with
  | nil => intro _; rfl
  | cons c cs ih =>
    intro h
    by_cases hp : p c = true
    · rw [List.find?_cons_of_pos _ hp] at h; exact absurd h (by simp)
    · rw [List.find?_cons_of_neg _ (by simpa using hp)] at h
      simp only [updateFirst, hp, if_false, Bool.false_eq_true]
      rw [ih h]

lemma find?_updateFirst (f : Command → Command) (id : Nat)
    (hf : ∀ c, (f c).id = c.id) :
    ∀ l : List Command, ∀ cmd, l.find? (fun c => c.id == id) = some cmd →
      (updateFirst (fun c => c.id == id) f l).find? (fun c => c.id == id)
        = some (f cmd) := by
  intro l
  induction l with
  | nil => intro cmd h; simp at h
  | cons c cs ih =>
    intro cmd h
    by_cases hp : (c.id == id) = true
    · have hc : c = cmd := by simpa [List.find?_cons, hp] using h
      subst hc
      have hp2 : ((f c).id == id) = true := by rw [hf c]; exact hp
      simp [updateFirst, hp, hp2, List.find?_cons]
    · have hp' : (c.id == id) = false := by simpa using hp
      rw [List.find?_cons, hp'] at h
      simp only [updateFirst, hp', Bool.false_eq_true, if_false]
      rw [List.find?_cons, hp']
      exact ih cmd h

lemma find?_removeCommand (s : RelayState) (id : Nat) :
    (removeCommand s id).commandQueue.find? (fun c => c.id == id) = none := by
  apply List.find?_eq_none.2
  intro c hc
  rw [removeCommand, List.mem_filter] at hc
  simpa using hc.2

lemma find?_append_none {p : Command → Bool} :
    ∀ l1 l2 : List Command, l1.find? p = none → (l1 ++ l2).find? p = l2.find? p := by
  intro l1
  induction l1 with
  | nil => intro l2 _; rfl
  | cons c cs ih =>
    intro l2 h
    rw [List.find?_cons] at h
    cases hp : p c with
    | true => rw [hp] at h; simp at h
    | false =>
      rw [hp] at h
      rw [List.cons_append, List.find?_cons, hp]
      exact ih l2 h

lemma find?_enqueue_fresh (s : RelayState) (tool : String) (args : JSVal)
    (hinv : ∀ i ∈ queueIds s, i ≤ s.commandIdCounter) :
    (enqueueCommand s tool args).2.commandQueue.find?
        (fun c => c.id == (enqueueCommand s tool args).1)
      = some ⟨s.commandIdCounter + 1, tool, args, Status.pending, JSVal.null⟩ := by
  have hnone : s.commandQueue.find?
      (fun c => c.id == s.commandIdCounter + 1) = none := by
    apply List.find?_eq_none.2
    intro c hc
    have hle := hinv c.id (List.mem_map_of_mem _ hc)
    simp only [Nat.beq_eq_true_eq]
    omega
  show (s.commandQueue
      ++ [(⟨s.commandIdCounter + 1, tool, args, Status.pending, JSVal.null⟩ : Command)]).find?
        (fun c => c.id == s.commandIdCounter + 1)
      = some ⟨s.commandIdCounter + 1, tool, args, Status.pending, JSVal.null⟩
  rw [find?_append_none _ _ hnone]
  simp [List.find?_cons]

lemma waitLoop_resolved (s : RelayState) (id : Nat) (cmd : Command)
    (h : s.commandQueue.find? (fun c => c.id == id) = some cmd)
    (hd : cmd.status = Status.done) (T k fuel : Nat) :
    waitLoop s id T k (fuel + 1)
      = some (WaitStep.resolved cmd.result, k, removeCommand s id) := by
  simp [waitLoop, waitTick, h, hd]

lemma waitLoop_timeout_aux (id T : Nat) :
    ∀ d k : Nat, ∀ s : RelayState, ∀ cmd : Command,
      s.commandQueue.find? (fun c => c.id == id) = some cmd →
      cmd.status ≠ Status.done →
      k + d = T / pollIntervalMs + 1 →
      waitLoop s id T k (d + 1)
        = some (WaitStep.rejected timeoutMsg1, T / pollIntervalMs + 1,
            removeCommand s id) := by
  intro d
  induction d with
  | zero =>
    intro k s cmd h hd hk
    have hgt : pollIntervalMs * k > T := by
      simp only [pollIntervalMs] at hk ⊢
      omega
    have hk' : k = T / pollIntervalMs + 1 := by omega
    subst hk'
    simp [waitLoop, waitTick, h, hd, hgt]
  | succ d ih =>
    intro k s cmd h hd hk
    have hdec : decide (pollIntervalMs * k > T) = false := by
      simp only [decide_eq_false_iff_not, pollIntervalMs, gt_iff_lt, not_lt]
      simp only [pollIntervalMs] at hk
      omega
    have hstep : waitTick s id (decide (pollIntervalMs * k > T))
        = (WaitStep.waiting, s) := by
      simp [waitTick, h, hd, hdec]
    rw [show d + 1 + 1 = d + 1 + 1 from rfl]
    simp only [waitLoop, hstep]
    exact ih (k + 1) s cmd h hd (by omega)

/-! ### Theorems -/

/-- C4: across any trace of operations, the ids returned by `enqueueCommand`
are strictly increasing (hence unique and never reused); each call appends
exactly one new pending record carrying the fresh id, so the live-set size
grows by one, and the call is total (never fails). -/
theorem C4_enqueue_ids_strictly_increasing (s : RelayState) (ops : List Op)
    (tool : String) (args : JSVal) :
    List.Pairwise (· < ·) (enqueueIds s ops)
    ∧ (enqueueCommand s tool args).1 = s.commandIdCounter + 1
    ∧ (enqueueCommand s tool args).2.commandQueue
        = s.commandQueue
          ++ [⟨s.commandIdCounter + 1, tool, args, Status.pending, JSVal.null⟩]
    ∧ (enqueueCommand s tool args).2.commandQueue.length
        = s.commandQueue.length + 1
    ∧ (enqueueCommand s tool args).2.commandIdCounter = s.commandIdCounter + 1 :=
  ⟨enqueueIds_pairwise ops s, rfl, rfl, by simp [enqueueCommand], rfl⟩

/-- C6: resolving an id that matches no live record changes no state and
raises no error, and the endpoint acknowledges with `{ ok: true }` (as it
does on every request). -/
theorem C6_resolve_unknown_id_noop (s : RelayState) (id : Nat) (r e : JSVal)
    (h : s.commandQueue.find? (fun c => c.id == id) = none) :
    (resultEndpoint s id r e).1 = JSVal.obj [(okKey, JSVal.bool true)]
    ∧ (resultEndpoint s id r e).2 = s := by
  refine ⟨rfl, ?_⟩
  simp only [resultEndpoint]
  rw [updateFirst_of_not_found _ _ _ h]

theorem C6_witness :
    (resultEndpoint wPending 5 JSVal.null JSVal.null).1
      = JSVal.obj [(okKey, JSVal.bool true)]
    ∧ (resultEndpoint wPending 5 JSVal.null JSVal.null).2 = wPending :=
  C6_resolve_unknown_id_noop wPending 5 JSVal.null JSVal.null rfl

/-- C10: when the completion body matches a live record, the stored outcome
is `{ error }` whenever the body's `error` field is truthy (discarding any
`result` payload), and is the `result` payload whenever `error` is absent or
falsy — even when both fields were supplied. -/
theorem C10_result_endpoint_stored_outcome (s : RelayState) (id : Nat)
    (r e : JSVal) (cmd : Command)
    (h : s.commandQueue.find? (fun c => c.id == id) = some cmd) :
    (resultEndpoint s id r e).2.commandQueue.find? (fun c => c.id == id)
      = some { cmd with status := Status.done, result := storedOutcome r e }
    ∧ (jsTruthy e = true → storedOutcome r e = JSVal.obj [(errorKey, e)])
    ∧ (jsTruthy e = false → storedOutcome r e = r) := by
  refine ⟨?_, ?_, ?_⟩
  · have hu := find?_updateFirst
      (fun c => { c with status := Status.done, result := storedOutcome r e }) id
      (fun c => rfl) s.commandQueue cmd h
    simpa [resultEndpoint] using hu
  · intro he; simp [storedOutcome, he]
  · intro he; simp [storedOutcome, he]

theorem C10_witness :
    (resultEndpoint wPending 1 (JSVal.obj [(outputKey, JSVal.num 2)])
        (JSVal.str emptyStr)).2.commandQueue.find? (fun c => c.id == 1)
      = some ⟨1, runScriptTool, JSVal.null, Status.done,
          storedOutcome (JSVal.obj [(outputKey, JSVal.num 2)]) (JSVal.str emptyStr)⟩
    ∧ storedOutcome (JSVal.obj [(outputKey, JSVal.num 2)]) (JSVal.str emptyStr)
      = JSVal.obj [(outputKey, JSVal.num 2)] := by
  have h := C10_result_endpoint_stored_outcome wPending 1
    (JSVal.obj [(outputKey, JSVal.num 2)]) (JSVal.str emptyStr)
    ⟨1, runScriptTool, JSVal.null, Status.pending, JSVal.null⟩ rfl
  exact ⟨h.1, h.2.2 rfl⟩

lemma resolve_then_wait (s : RelayState) (id : Nat) (result error : JSVal)
    (cmd : Command) (T k fuel : Nat)
    (h : s.commandQueue.find? (fun c => c.id == id) = some cmd) :
    waitLoop (resultEndpoint s id result error).2 id T k (fuel + 1)
      = some (WaitStep.resolved (storedOutcome result error), k,
          removeCommand (resultEndpoint s id result error).2 id) := by
  have h1 := find?_updateFirst
    (fun c => { c with status := Status.done, result := storedOutcome result error })
    id (fun c => rfl) s.commandQueue cmd h
  exact waitLoop_resolved (resultEndpoint s id result error).2 id
    { cmd with status := Status.done, result := storedOutcome result error }
    h1 rfl T k fuel

lemma studioCallFinish_error (error : JSVal) (he : jsTruthy error = true) :
    studioCallFinish (JSVal.obj [(errorKey, error)]) = Except.error error := by
  have hget : jsGet (JSVal.obj [(errorKey, error)]) errorKey = error := by
    simp [jsGet, List.find?_cons]
  have htrue : jsTruthy (JSVal.obj [(errorKey, error)]) = true := rfl
  simp [studioCallFinish, hget, he, htrue]

lemma studioCallFinish_ok (result : JSVal)
    (hg : (jsTruthy result && jsTruthy (jsGet result errorKey)) = false) :
    studioCallFinish result = Except.ok result := by
  simp [studioCallFinish, hg]

/-- C1: after the completion endpoint resolves a live record, the next firing
of an in-progress `waitForResult` for that id resolves with exactly the
stored outcome and removes the record, leaving no record with that id in the
live set; at the `studioCall` level an error outcome fails the call with that
error and a success outcome returns the payload. -/
theorem C1_resolve_then_await (s : RelayState) (id : Nat)
    (result error : JSVal) (cmd : Command) (T k fuel : Nat)
    (h : s.commandQueue.find? (fun c => c.id == id) = some cmd) :
    waitLoop (resultEndpoint s id result error).2 id T k (fuel + 1)
      = some (WaitStep.resolved (storedOutcome result error), k,
          removeCommand (resultEndpoint s id result error).2 id)
    ∧ (removeCommand (resultEndpoint s id result error).2 id).commandQueue.find?
        (fun c => c.id == id) = none
    ∧ (jsTruthy error = true →
        studioCallFinish (storedOutcome result error) = Except.error error)
    ∧ (jsTruthy error = false →
        (jsTruthy result && jsTruthy (jsGet result errorKey)) = false →
        studioCallFinish (storedOutcome result error) = Except.ok result) := by
  refine ⟨resolve_then_wait s id result error cmd T k fuel h,
    find?_removeCommand _ id, ?_, ?_⟩
  · intro he
    have hout : storedOutcome result error = JSVal.obj [(errorKey, error)] := by
      simp [storedOutcome, he]
    rw [hout]
    exact studioCallFinish_error error he
  · intro he hg
    have hout : storedOutcome result error = result := by
      simp [storedOutcome, he]
    rw [hout]
    exact studioCallFinish_ok result hg

theorem C1_witness :
    waitLoop (resultEndpoint wPending 1 (JSVal.obj [(outputKey, JSVal.num 2)])
        JSVal.null).2 1 30000 1 1
      = some (WaitStep.resolved
            (storedOutcome (JSVal.obj [(outputKey, JSVal.num 2)]) JSVal.null), 1,
          removeCommand (resultEndpoint wPending 1
            (JSVal.obj [(outputKey, JSVal.num 2)]) JSVal.null).2 1)
    ∧ studioCallFinish (storedOutcome (JSVal.obj [(outputKey, JSVal.num 2)]) JSVal.null)
      = Except.ok (JSVal.obj [(outputKey, JSVal.num 2)]) := by
  have h := C1_resolve_then_await wPending 1 (JSVal.obj [(outputKey, JSVal.num 2)])
    JSVal.null ⟨1, runScriptTool, JSVal.null, Status.pending, JSVal.null⟩ 30000 1 0 rfl
  exact ⟨h.1, h.2.2.2 rfl (by decide)⟩

/-- C2: a record that is present but never resolved makes `waitForResult`
fail with the Timeout rejection at the first tick whose elapsed time
`pollIntervalMs * k` exceeds the timeout `T`; that elapsed time is strictly
greater than `T` and at most `T` plus one polling interval, and the record is
removed from the live set when the failure is delivered. -/
theorem C2_unresolved_times_out (s : RelayState) (id T : Nat) (cmd : Command)
    (h : s.commandQueue.find? (fun c => c.id == id) = some cmd)
    (hd : cmd.status ≠ Status.done) :
    waitLoop s id T 1 (T / pollIntervalMs + 1)
      = some (WaitStep.rejected timeoutMsg1, T / pollIntervalMs + 1,
          removeCommand s id)
    ∧ T < pollIntervalMs * (T / pollIntervalMs + 1)
    ∧ pollIntervalMs * (T / pollIntervalMs + 1) ≤ T + pollIntervalMs
    ∧ (removeCommand s id).commandQueue.find? (fun c => c.id == id) = none := by
  refine ⟨?_, ?_, ?_, find?_removeCommand s id⟩
  · exact waitLoop_timeout_aux id T (T / pollIntervalMs) 1 s cmd h hd (by omega)
  · simp only [pollIntervalMs]; omega
  · simp only [pollIntervalMs]; omega

theorem C2_witness :
    waitLoop wPending 1 100 1 (100 / pollIntervalMs + 1)
      = some (WaitStep.rejected timeoutMsg1, 100 / pollIntervalMs + 1,
          removeCommand wPending 1)
    ∧ 100 < pollIntervalMs * (100 / pollIntervalMs + 1)
    ∧ pollIntervalMs * (100 / pollIntervalMs + 1) ≤ 100 + pollIntervalMs
    ∧ (removeCommand wPending 1).commandQueue.find? (fun c => c.id == 1) = none :=
  C2_unresolved_times_out wPending 1 100
    ⟨1, runScriptTool, JSVal.null, Status.pending, JSVal.null⟩ rfl (by decide)

/-- C7: when the executing client reports a truthy error description for an
enqueued command, the synchronous call (enqueue, then await) fails, and the
error surfaced to the caller is exactly the reported description. -/
theorem C7_error_surfaced_verbatim (s : RelayState) (tool : String)
    (args result error : JSVal) (T k fuel : Nat)
    (hinv : ∀ i ∈ queueIds s, i ≤ s.commandIdCounter)
    (he : jsTruthy error = true) :
    waitLoop (resultEndpoint (enqueueCommand s tool args).2
        (enqueueCommand s tool args).1 result error).2
        (enqueueCommand s tool args).1 T k (fuel + 1)
      = some (WaitStep.resolved (JSVal.obj [(errorKey, error)]), k,
          removeCommand (resultEndpoint (enqueueCommand s tool args).2
            (enqueueCommand s tool args).1 result error).2
            (enqueueCommand s tool args).1)
    ∧ studioCallFinish (JSVal.obj [(errorKey, error)]) = Except.error error := by
  have hfind := find?_enqueue_fresh s tool args hinv
  have h := resolve_then_wait (enqueueCommand s tool args).2
    (enqueueCommand s tool args).1 result error
    ⟨s.commandIdCounter + 1, tool, args, Status.pending, JSVal.null⟩ T k fuel hfind
  have hout : storedOutcome result error = JSVal.obj [(errorKey, error)] := by
    simp [storedOutcome, he]
  refine ⟨?_, studioCallFinish_error error he⟩
  rw [← hout]
  exact h

theorem C7_witness :
    waitLoop (resultEndpoint (enqueueCommand initState runScriptTool JSVal.null).2
        (enqueueCommand initState runScriptTool JSVal.null).1 JSVal.null
        (JSVal.str noSourceText)).2
        (enqueueCommand initState runScriptTool JSVal.null).1 30000 1 1
      = some (WaitStep.resolved (JSVal.obj [(errorKey, JSVal.str noSourceText)]), 1,
          removeCommand (resultEndpoint (enqueueCommand initState runScriptTool JSVal.null).2
            (enqueueCommand initState runScriptTool JSVal.null).1 JSVal.null
            (JSVal.str noSourceText)).2
            (enqueueCommand initState runScriptTool JSVal.null).1)
    ∧ studioCallFinish (JSVal.obj [(errorKey, JSVal.str noSourceText)])
      = Except.error (JSVal.str noSourceText) :=
  C7_error_surfaced_verbatim initState runScriptTool JSVal.null JSVal.null
    (JSVal.str noSourceText) 30000 1 0 (by simp [initState, queueIds]) (by decide)

/-- C8: a `get_script` command resolved with a success payload maps, through
the tool handler, to the payload's `source` text when a `source` field is
present, and to the "not found" placeholder when the payload lacks a
`source` field (such as the empty object). -/
theorem C8_get_script_source_mapping (s : RelayState)
    (path : JSVal) (fields : List (String × JSVal)) (T k fuel : Nat)
    (hinv : ∀ i ∈ queueIds s, i ≤ s.commandIdCounter) :
    waitLoop (resultEndpoint
        (enqueueCommand s getScriptTool (JSVal.obj [(pathKey, path)])).2
        (enqueueCommand s getScriptTool (JSVal.obj [(pathKey, path)])).1
        (JSVal.obj fields) JSVal.undefined).2
        (enqueueCommand s getScriptTool (JSVal.obj [(pathKey, path)])).1 T k (fuel + 1)
      = some (WaitStep.resolved (JSVal.obj fields), k,
          removeCommand (resultEndpoint
            (enqueueCommand s getScriptTool (JSVal.obj [(pathKey, path)])).2
            (enqueueCommand s getScriptTool (JSVal.obj [(pathKey, path)])).1
            (JSVal.obj fields) JSVal.undefined).2
            (enqueueCommand s getScriptTool (JSVal.obj [(pathKey, path)])).1)
    ∧ (fields.find? (fun p => p.1 == sourceKey) = none →
        getScriptText (JSVal.obj fields) = JSVal.str noSourceText)
    ∧ (∀ t : String, jsGet (JSVal.obj fields) sourceKey = JSVal.str t →
        getScriptText (JSVal.obj fields) = JSVal.str t) := by
  have hfind := find?_enqueue_fresh s getScriptTool (JSVal.obj [(pathKey, path)]) hinv
  have h := resolve_then_wait
    (enqueueCommand s getScriptTool (JSVal.obj [(pathKey, path)])).2
    (enqueueCommand s getScriptTool (JSVal.obj [(pathKey, path)])).1
    (JSVal.obj fields) JSVal.undefined
    ⟨s.commandIdCounter + 1, getScriptTool, JSVal.obj [(pathKey, path)],
      Status.pending, JSVal.null⟩ T k fuel hfind
  have hout : storedOutcome (JSVal.obj fields) JSVal.undefined = JSVal.obj fields := by
    simp [storedOutcome, jsTruthy]
  refine ⟨?_, ?_, ?_⟩
  · rw [← hout]; exact h
  · intro hnone; simp [getScriptText, jsGet, hnone]
  · intro t hsrc; simp [getScriptText, hsrc]

theorem C8_witness :
    waitLoop (resultEndpoint
        (enqueueCommand initState getScriptTool (JSVal.obj [(pathKey, JSVal.str pathKey)])).2
        (enqueueCommand initState getScriptTool (JSVal.obj [(pathKey, JSVal.str pathKey)])).1
        (JSVal.obj []) JSVal.undefined).2
        (enqueueCommand initState getScriptTool (JSVal.obj [(pathKey, JSVal.str pathKey)])).1
        30000 1 1
      = some (WaitStep.resolved (JSVal.obj []), 1,
          removeCommand (resultEndpoint
            (enqueueCommand initState getScriptTool (JSVal.obj [(pathKey, JSVal.str pathKey)])).2
            (enqueueCommand initState getScriptTool (JSVal.obj [(pathKey, JSVal.str pathKey)])).1
            (JSVal.obj []) JSVal.undefined).2
            (enqueueCommand initState getScriptTool (JSVal.obj [(pathKey, JSVal.str pathKey)])).1)
    ∧ getScriptText (JSVal.obj []) = JSVal.str noSourceText := by
  have h := C8_get_script_source_mapping initState (JSVal.str pathKey) [] 30000 1 0
    (by simp [initState, queueIds])
  exact ⟨h.1, h.2.1 rfl⟩

lemma find?_append_some {p : Command → Bool} :
    ∀ l1 l2 : List Command, ∀ x, l1.find? p = some x → (l1 ++ l2).find? p = some x := by
  intro l1
  induction l1 with
  | nil => intro l2 x h; simp at h
  | cons c cs ih =>
    intro l2 x h
    rw [List.find?_cons] at h
    rw [List.cons_append, List.find?_cons]
    cases hp : p c with
    | true => rw [hp] at h; exact h
    | false => rw [hp] at h; exact ih l2 x h

lemma find?_map_of_pred (g : Command → Command) (p : Command → Bool)
    (hp : ∀ c, p (g c) = p c) :
    ∀ l : List Command, (l.map g).find? p = (l.find? p).map g := by
  intro l
  induction l with
  | nil => rfl
  | cons c cs ih =>
    rw [List.map_cons, List.find?_cons, List.find?_cons, hp c]
    cases hpc : p c with
    | true => rfl
    | false => exact ih

lemma find?_updateFirst_ne (q p : Command → Bool) (f : Command → Command)
    (hqp : ∀ c, q c = true → p c = false) (hpf : ∀ c, p (f c) = p c) :
    ∀ l : List Command, (updateFirst q f l).find? p = l.find? p := by
  intro l
  induction l with
  | nil => rfl
  | cons c cs ih =>
    by_cases hq : q c = true
    · simp only [updateFirst, hq, if_true]
      rw [List.find?_cons, List.find?_cons, hpf c]
      rw [hqp c hq]
    · have hq' : q c = false := by simpa using hq
      simp only [updateFirst, hq', Bool.false_eq_true, if_false]
      rw [List.find?_cons, List.find?_cons]
      cases hpc : p c with
      | true => rfl
      | false => exact ih

lemma find?_filter_of_imp (q p : Command → Bool)
    (himp : ∀ c, p c = true → q c = true) :
    ∀ l : List Command, (l.filter q).find? p = l.find? p := by
  intro l
  induction l with
  | nil => rfl
  | cons c cs ih =>
    cases hq : q c with
    | true =>
      rw [List.filter_cons_of_pos hq, List.find?_cons, List.find?_cons]
      cases hpc : p c with
      | true => rfl
      | false => exact ih
    | false =>
      have hpc : p c = false := by
        cases hpc : p c with
        | true => rw [himp c hpc] at hq; exact absurd hq (by simp)
        | false => rfl
      rw [List.filter_cons_of_neg (by simp [hq]), List.find?_cons, hpc]
      exact ih

lemma statusOf_removeCommand_self (s : RelayState) (id : Nat) :
    statusOf (removeCommand s id) id = none := by
  unfold statusOf
  rw [find?_removeCommand]
  rfl

lemma statusOf_removeCommand_ne (s : RelayState) (i id : Nat) (hne : i ≠ id) :
    statusOf (removeCommand s i) id = statusOf s id := by
  unfold statusOf removeCommand
  rw [find?_filter_of_imp]
  intro c hc
  simp only [Nat.beq_eq_true_eq] at hc
  simp only [bne_iff_ne, ne_eq, decide_eq_true_eq]
  omega

lemma rank_goal_of_eq {st st' : Status} {op : Op} (hst : st' = st) :
    statusRank st ≤ statusRank st'
    ∧ (st' = Status.sent → st = Status.sent ∨ (st = Status.pending ∧ op = Op.poll)) := by
  subst hst
  exact ⟨le_refl _, fun hs => Or.inl hs⟩

lemma statusOf_eq (s : RelayState) (id : Nat) (c : Command)
    (h : s.commandQueue.find? (fun x => x.id == id) = some c) :
    statusOf s id = some c.status := by
  unfold statusOf
  rw [h]
  rfl

/-- C5 (amended): statuses move only forward (the rank in
pending → sent → done never decreases under any operation), and the only
transition into `sent` is the poll endpoint's claim of a pending record; the
completion endpoint, however, marks a live record `done` regardless of its
current status, so an unclaimed pending record moves directly to `done`
(see the counterexample). -/
theorem C5_status_monotonic (s : RelayState) (op : Op) (id : Nat)
    (st st' : Status)
    (h : statusOf s id = some st)
    (h' : statusOf (applyOp s op) id = some st') :
    statusRank st ≤ statusRank st'
    ∧ (st' = Status.sent →
        st = Status.sent ∨ (st = Status.pending ∧ op = Op.poll)) := by
  obtain ⟨c, hc, hcst⟩ : ∃ c, s.commandQueue.find? (fun x => x.id == id) = some c
      ∧ c.status = st := by
    unfold statusOf at h
    cases hf : s.commandQueue.find? (fun x => x.id == id) with
    | none => rw [hf] at h; simp at h
    | some c => rw [hf] at h; exact ⟨c, rfl, by simpa using h⟩
  cases op with
  | enqueue tool args =>
    have hfind := find?_append_some (p := fun x => x.id == id) s.commandQueue
      [⟨s.commandIdCounter + 1, tool, args, Status.pending, JSVal.null⟩] c hc
    have hnew : statusOf (applyOp s (Op.enqueue tool args)) id = some c.status :=
      statusOf_eq _ id c hfind
    rw [hnew] at h'
    injection h' with hx
    exact rank_goal_of_eq (hx.symm.trans hcst)
  | poll =>
    have hp : ∀ x : Command,
        (((if x.status = Status.pending then { x with status := Status.sent } else x)).id == id)
          = (x.id == id) := by
      intro x
      by_cases hx : x.status = Status.pending <;> simp [hx]
    have hfind := find?_map_of_pred
      (fun x => if x.status = Status.pending then { x with status := Status.sent } else x)
      (fun x => x.id == id) hp s.commandQueue
    have hq : (s.commandQueue.map
        (fun x => if x.status = Status.pending then { x with status := Status.sent } else x)).find?
          (fun x => x.id == id)
        = some (if c.status = Status.pending then { c with status := Status.sent } else c) := by
      rw [hfind, hc]
      rfl
    have hnew := statusOf_eq (applyOp s Op.poll) id _ hq
    rw [hnew] at h'
    injection h' with hx
    by_cases hcp : c.status = Status.pending
    · rw [if_pos hcp] at hx
      have hst' : st' = Status.sent := hx.symm
      have hstp : st = Status.pending := by rw [← hcst, hcp]
      subst hst'
      subst hstp
      exact ⟨by decide, fun _ => Or.inr ⟨rfl, rfl⟩⟩
    · rw [if_neg hcp] at hx
      exact rank_goal_of_eq (hx.symm.trans hcst)
  | resolveOp i r e =>
    by_cases hii : i = id
    · subst hii
      have hfind := find?_updateFirst
        (fun x => { x with status := Status.done, result := storedOutcome r e })
        i (fun x => rfl) s.commandQueue c hc
      have hnew := statusOf_eq (applyOp s (Op.resolveOp i r e)) i _ hfind
      rw [hnew] at h'
      injection h' with hx
      have hst' : st' = Status.done := hx.symm
      subst hst'
      refine ⟨by cases st <;> decide, fun hs => absurd hs (by decide)⟩
    · have hfind := find?_updateFirst_ne (fun x => x.id == i) (fun x => x.id == id)
        (fun x => { x with status := Status.done, result := storedOutcome r e })
        (fun x hx => by
          simp only [Nat.beq_eq_true_eq] at hx
          simp only [beq_eq_false_iff_ne, ne_eq]
          omega)
        (fun x => rfl) s.commandQueue
      have hq2 : (updateFirst (fun x => x.id == i)
          (fun x => { x with status := Status.done, result := storedOutcome r e })
          s.commandQueue).find? (fun x => x.id == id) = some c := by
        rw [hfind]
        exact hc
      have hnew := statusOf_eq (applyOp s (Op.resolveOp i r e)) id c hq2
      rw [hnew] at h'
      injection h' with hx
      exact rank_goal_of_eq (hx.symm.trans hcst)
  | waitTickOp i t =>
    have hcases : (waitTick s i t).2 = s ∨ (waitTick s i t).2 = removeCommand s i := by
      unfold waitTick
      cases hf : s.commandQueue.find? (fun x => x.id == i) with
      | none => exact Or.inl rfl
      | some cmd =>
        by_cases hd : cmd.status = Status.done
        · simp [hd]
        · cases t with
          | true => simp [hd]
          | false => simp [hd]
    rcases hcases with hs | hs
    · rw [show applyOp s (Op.waitTickOp i t) = (waitTick s i t).2 from rfl, hs] at h'
      rw [h] at h'
      injection h' with hx
      exact rank_goal_of_eq hx.symm
    · rw [show applyOp s (Op.waitTickOp i t) = (waitTick s i t).2 from rfl, hs] at h'
      by_cases hii : i = id
      · subst hii
        rw [statusOf_removeCommand_self] at h'
        exact absurd h' (by simp)
      · rw [statusOf_removeCommand_ne s i id hii, h] at h'
        injection h' with hx
        exact rank_goal_of_eq hx.symm

theorem C5_witness :
    statusRank Status.pending ≤ statusRank Status.sent
    ∧ (Status.sent = Status.sent →
        Status.pending = Status.sent
        ∨ (Status.pending = Status.pending ∧ Op.poll = Op.poll)) :=
  C5_status_monotonic wPending Op.poll 1 Status.pending Status.sent rfl rfl

/-- C5 counterexample: in the state with one pending, never-claimed record,
one completion-endpoint call moves that record directly from `pending` to
`done` — it reaches `done` without ever being marked `sent` by the dispatch
endpoint, refuting the claim as stated. -/
theorem C5_counterexample :
    statusOf wPending 1 = some Status.pending
    ∧ statusOf (applyOp wPending (Op.resolveOp 1 JSVal.null JSVal.null)) 1
      = some Status.done := by
  constructor <;> rfl

/-- C9 (amended): the two variants' core relay operations are extensionally
identical for `enqueueCommand`, the poll endpoint and the result endpoint,
and their `waitForResult` ticks perform the same state transitions and
settle in the same cases with the same resolution values — but the Timeout
rejection carries a different message text in each variant. -/
theorem C9_variants_equivalent_up_to_message :
    (∀ (s : RelayState) (tool : String) (args : JSVal),
      enqueueCommand2 s tool args = enqueueCommand s tool args)
    ∧ (∀ s : RelayState, pollEndpoint2 s = pollEndpoint s)
    ∧ (∀ (s : RelayState) (id : Nat) (r e : JSVal),
      resultEndpoint2 s id r e = resultEndpoint s id r e)
    ∧ (∀ (s : RelayState) (id : Nat) (t : Bool),
      (waitTick2 s id t).2 = (waitTick s id t).2
      ∧ ((waitTick2 s id t).1 = WaitStep.waiting
          ↔ (waitTick s id t).1 = WaitStep.waiting)
      ∧ (∀ r : JSVal, (waitTick2 s id t).1 = WaitStep.resolved r
          ↔ (waitTick s id t).1 = WaitStep.resolved r)
      ∧ ((waitTick2 s id t).1 = WaitStep.rejected notFoundMsg
          ↔ (waitTick s id t).1 = WaitStep.rejected notFoundMsg)
      ∧ ((waitTick2 s id t).1 = WaitStep.rejected timeoutMsg2
          ↔ (waitTick s id t).1 = WaitStep.rejected timeoutMsg1)) := by
  refine ⟨fun s tool args => rfl, fun s => rfl, fun s id r e => rfl,
    fun s id t => ?_⟩
  cases hf : s.commandQueue.find? (fun c => c.id == id) with
  | none =>
    have h1 : waitTick s id t = (WaitStep.rejected notFoundMsg, s) := by
      unfold waitTick; rw [hf]
    have h2 : waitTick2 s id t = (WaitStep.rejected notFoundMsg, s) := by
      unfold waitTick2; rw [hf]
    rw [h1, h2]
    refine ⟨rfl, by simp, fun r => by simp, Iff.rfl,
      iff_of_false (fun hmsg => ?_) (fun hmsg => ?_)⟩
    · injection hmsg with hm; exact absurd hm (by decide)
    · injection hmsg with hm; exact absurd hm (by decide)
  | some cmd =>
    by_cases hd : cmd.status = Status.done
    · have h1 : waitTick s id t = (WaitStep.resolved cmd.result, removeCommand s id) := by
        unfold waitTick; rw [hf]; simp [hd]
      have h2 : waitTick2 s id t = (WaitStep.resolved cmd.result, removeCommand s id) := by
        unfold waitTick2; rw [hf]; simp [hd]
      rw [h1, h2]
      exact ⟨rfl, by simp, fun r => Iff.rfl, by simp, by simp⟩
    · cases t with
      | false =>
        have h1 : waitTick s id false = (WaitStep.waiting, s) := by
          unfold waitTick; rw [hf]; simp [hd]
        have h2 : waitTick2 s id false = (WaitStep.waiting, s) := by
          unfold waitTick2; rw [hf]; simp [hd]
        rw [h1, h2]
        exact ⟨rfl, Iff.rfl, fun r => by simp, by simp, by simp⟩
      | true =>
        have h1 : waitTick s id true
            = (WaitStep.rejected timeoutMsg1, removeCommand s id) := by
          unfold waitTick; rw [hf]; simp [hd]
        have h2 : waitTick2 s id true
            = (WaitStep.rejected timeoutMsg2, removeCommand s id) := by
          unfold waitTick2; rw [hf]; simp [hd]
        rw [h1, h2]
        refine ⟨rfl, by simp, fun r => by simp,
          iff_of_false (fun hmsg => ?_) (fun hmsg => ?_),
          iff_of_true rfl rfl⟩
        · injection hmsg with hm; exact absurd hm (by decide)
        · injection hmsg with hm; exact absurd hm (by decide)

/-- C9 counterexample: on the state with one pending record and a tick whose
timeout has elapsed, the two variants' `waitForResult` ticks give different
results — variant 1 rejects with its Timeout message, variant 2 with a
different one — so the variants do not produce the same results on every
input. -/
theorem C9_counterexample :
    waitTick2 wPending 1 true ≠ waitTick wPending 1 true := by
  intro h
  have h2 := congrArg Prod.fst h
  have h1 : timeoutMsg2 = timeoutMsg1 := by
    have hv2 : (waitTick2 wPending 1 true).1 = WaitStep.rejected timeoutMsg2 := rfl
    have hv1 : (waitTick wPending 1 true).1 = WaitStep.rejected timeoutMsg1 := rfl
    rw [hv2, hv1] at h2
    injection h2
  exact absurd h1 (by decide)

lemma map_id_of_preserve (g : Command → Command) (hg : ∀ c, (g c).id = c.id) :
    ∀ l : List Command, (l.map g).map (fun c => c.id) = l.map (fun c => c.id) := by
  intro l
  induction l with
  | nil => rfl
  | cons c cs ih => simp [hg, ih]

lemma map_id_updateFirst (p : Command → Bool) (f : Command → Command)
    (hf : ∀ c, (f c).id = c.id) :
    ∀ l : List Command,
      (updateFirst p f l).map (fun c => c.id) = l.map (fun c => c.id) := by
  intro l
  induction l with
  | nil => rfl
  | cons c cs ih =>
    by_cases hp : p c = true
    · have hu : updateFirst p f (c :: cs) = f c :: cs := by simp [updateFirst, hp]
      rw [hu]
      simp [hf]
    · have hp' : p c = false := by simpa using hp
      have hu : updateFirst p f (c :: cs) = c :: updateFirst p f cs := by
        simp [updateFirst, hp']
      rw [hu]
      simp [ih]

lemma waitTick_state_cases (s : RelayState) (i : Nat) (t : Bool) :
    (waitTick s i t).2 = s ∨ (waitTick s i t).2 = removeCommand s i := by
  unfold waitTick
  cases hf : s.commandQueue.find? (fun x => x.id == i) with
  | none => exact Or.inl rfl
  | some cmd =>
    by_cases hd : cmd.status = Status.done
    · simp [hd]
    · cases t with
      | true => simp [hd]
      | false => simp [hd]

lemma queueInv_applyOp (s : RelayState) (op : Op) (h : QueueInv s) :
    QueueInv (applyOp s op) := by
  obtain ⟨hpw, hbd⟩ := h
  cases op with
  | enqueue tool args =>
    have hq : queueIds (applyOp s (Op.enqueue tool args))
        = queueIds s ++ [s.commandIdCounter + 1] := by
      simp [queueIds, applyOp, enqueueCommand]
    constructor
    · rw [hq, List.pairwise_append]
      refine ⟨hpw, by simp, ?_⟩
      intro a ha b hb
      simp only [List.mem_singleton] at hb
      subst hb
      exact lt_of_le_of_lt (hbd a ha) (Nat.lt_succ_self _)
    · intro i hi
      rw [hq] at hi
      show i ≤ s.commandIdCounter + 1
      rcases List.mem_append.1 hi with h1 | h1
      · exact Nat.le_succ_of_le (hbd i h1)
      · simp only [List.mem_singleton] at h1
        omega
  | poll =>
    have hq : queueIds (applyOp s Op.poll) = queueIds s :=
      map_id_of_preserve _
        (fun c => by by_cases hc : c.status = Status.pending <;> simp [hc])
        s.commandQueue
    constructor
    · rw [hq]; exact hpw
    · intro i hi
      rw [hq] at hi
      exact hbd i hi
  | resolveOp i r e =>
    have hq : queueIds (applyOp s (Op.resolveOp i r e)) = queueIds s :=
      map_id_updateFirst (fun x => x.id == i)
        (fun x => { x with status := Status.done, result := storedOutcome r e })
        (fun x => rfl) s.commandQueue
    constructor
    · rw [hq]; exact hpw
    · intro j hj
      rw [hq] at hj
      exact hbd j hj
  | waitTickOp i t =>
    rcases waitTick_state_cases s i t with hs | hs
    · rw [show applyOp s (Op.waitTickOp i t) = (waitTick s i t).2 from rfl, hs]
      exact ⟨hpw, hbd⟩
    · rw [show applyOp s (Op.waitTickOp i t) = (waitTick s i t).2 from rfl, hs]
      have hsub : List.Sublist (queueIds (removeCommand s i)) (queueIds s) :=
        (List.filter_sublist _).map _
      constructor
      · exact hpw.sublist hsub
      · intro j hj
        exact hbd j (hsub.subset hj)

lemma mem_updateFirst (p : Command → Bool) (f : Command → Command) :
    ∀ l : List Command, ∀ c ∈ updateFirst p f l,
      c ∈ l ∨ ∃ c0 ∈ l, c = f c0 := by
  intro l
  induction l with
  | nil => intro c hc; simp [updateFirst] at hc
  | cons a as ih =>
    intro c hc
    by_cases hp : p a = true
    · have hu : updateFirst p f (a :: as) = f a :: as := by simp [updateFirst, hp]
      rw [hu] at hc
      rcases List.mem_cons.1 hc with h1 | h1
      · exact Or.inr ⟨a, List.mem_cons_self a as, h1⟩
      · exact Or.inl (List.mem_cons_of_mem a h1)
    · have hp' : p a = false := by simpa using hp
      have hu : updateFirst p f (a :: as) = a :: updateFirst p f as := by
        simp [updateFirst, hp']
      rw [hu] at hc
      rcases List.mem_cons.1 hc with h1 | h1
      · exact Or.inl (by rw [h1]; exact List.mem_cons_self a as)
      · rcases ih c h1 with h2 | ⟨c0, hc0, h3⟩
        · exact Or.inl (List.mem_cons_of_mem a h2)
        · exact Or.inr ⟨c0, List.mem_cons_of_mem a hc0, h3⟩

lemma noPending_applyOp (s : RelayState) (id : Nat) (op : Op)
    (h : noPending s id) : noPending (applyOp s op) id := by
  obtain ⟨hle, hnp⟩ := h
  cases op with
  | enqueue tool args =>
    refine ⟨Nat.le_succ_of_le hle, ?_⟩
    intro c hc hcid
    have hq : (applyOp s (Op.enqueue tool args)).commandQueue
        = s.commandQueue
          ++ [⟨s.commandIdCounter + 1, tool, args, Status.pending, JSVal.null⟩] := rfl
    rw [hq] at hc
    rcases List.mem_append.1 hc with h1 | h1
    · exact hnp c h1 hcid
    · simp only [List.mem_singleton] at h1
      subst h1
      have hcd : s.commandIdCounter + 1 = id := hcid
      exact absurd hcd (by omega)
  | poll =>
    refine ⟨hle, ?_⟩
    intro c hc hcid
    have hq : (applyOp s Op.poll).commandQueue
        = s.commandQueue.map
            (fun x => if x.status = Status.pending then { x with status := Status.sent } else x) :=
      rfl
    rw [hq] at hc
    rcases List.mem_map.1 hc with ⟨c0, hc0, rfl⟩
    by_cases h0 : c0.status = Status.pending
    · simp [h0]
    · simp [h0]
  | resolveOp i r e =>
    refine ⟨hle, ?_⟩
    intro c hc hcid
    have hq : (applyOp s (Op.resolveOp i r e)).commandQueue
        = updateFirst (fun x => x.id == i)
            (fun x => { x with status := Status.done, result := storedOutcome r e })
            s.commandQueue := rfl
    rw [hq] at hc
    rcases mem_updateFirst _ _ s.commandQueue c hc with h1 | ⟨c0, hc0, rfl⟩
    · exact hnp c h1 hcid
    · exact (by decide : Status.done ≠ Status.pending)
  | waitTickOp i t =>
    rcases waitTick_state_cases s i t with hs | hs
    · rw [show applyOp s (Op.waitTickOp i t) = (waitTick s i t).2 from rfl, hs]
      exact ⟨hle, hnp⟩
    · rw [show applyOp s (Op.waitTickOp i t) = (waitTick s i t).2 from rfl, hs]
      refine ⟨hle, ?_⟩
      intro c hc hcid
      have hq : (removeCommand s i).commandQueue
          = s.commandQueue.filter (fun x => x.id != i) := rfl
      rw [hq] at hc
      exact hnp c (List.mem_filter.1 hc).1 hcid

lemma pollOut_from_pending (s : RelayState) :
    ∀ c' ∈ (pollEndpoint s).1, ∃ c ∈ s.commandQueue,
      c.status = Status.pending ∧ c' = { c with status := Status.sent } := by
  intro c' hc'
  have hq : (pollEndpoint s).1
      = (s.commandQueue.filter (fun c => decide (c.status = Status.pending))).map
          (fun c => { c with status := Status.sent }) := rfl
  rw [hq] at hc'
  rcases List.mem_map.1 hc' with ⟨c, hc, rfl⟩
  have hmf := List.mem_filter.1 hc
  exact ⟨c, hmf.1, by simpa using hmf.2, rfl⟩

lemma pending_in_pollOut (s : RelayState) :
    ∀ c ∈ s.commandQueue, c.status = Status.pending →
      { c with status := Status.sent } ∈ (pollEndpoint s).1 := by
  intro c hc hcp
  have hq : (pollEndpoint s).1
      = (s.commandQueue.filter (fun c => decide (c.status = Status.pending))).map
          (fun c => { c with status := Status.sent }) := rfl
  rw [hq]
  exact List.mem_map_of_mem _ (List.mem_filter.2 ⟨hc, by simp [hcp]⟩)

lemma pollOut_blocked (s : RelayState) (id : Nat) (h : noPending s id) :
    ∀ c' ∈ (pollEndpoint s).1, c'.id ≠ id := by
  intro c' hc'
  rcases pollOut_from_pending s c' hc' with ⟨c, hc, hcp, rfl⟩
  intro hid
  exact (h.2 c hc hid) hcp

lemma noPending_after_poll (s : RelayState) (id : Nat)
    (hbd : id ≤ s.commandIdCounter) :
    noPending (applyOp s Op.poll) id := by
  refine ⟨hbd, ?_⟩
  intro c hc _
  have hq : (applyOp s Op.poll).commandQueue
      = s.commandQueue.map
          (fun x => if x.status = Status.pending then { x with status := Status.sent } else x) :=
    rfl
  rw [hq] at hc
  rcases List.mem_map.1 hc with ⟨c0, hc0, rfl⟩
  by_cases h0 : c0.status = Status.pending
  · simp [h0]
  · simp [h0]

lemma pollOuts_noPending (id : Nat) :
    ∀ (ops : List Op) (s : RelayState), noPending s id →
      (pollOuts s ops).filter (fun o => o.any (fun c => c.id == id)) = [] := by
  intro ops
  induction ops with
  | nil => intro s _; rfl
  | cons op ops ih =>
    intro s h
    cases op with
    | poll =>
      have hout : ((pollEndpoint s).1.any (fun c => c.id == id)) = false := by
        rw [List.any_eq_false]
        intro c hc
        simpa using pollOut_blocked s id h c hc
      simp only [pollOuts]
      rw [List.filter_cons, hout]
      simp only [Bool.false_eq_true, if_false]
      exact ih _ (noPending_applyOp s id Op.poll h)
    | enqueue tool args =>
      simp only [pollOuts]
      exact ih _ (noPending_applyOp s id _ h)
    | resolveOp i r e =>
      simp only [pollOuts]
      exact ih _ (noPending_applyOp s id _ h)
    | waitTickOp i t =>
      simp only [pollOuts]
      exact ih _ (noPending_applyOp s id _ h)

lemma pollOuts_atMostOnce (id : Nat) :
    ∀ (ops : List Op) (s : RelayState), QueueInv s →
      ((pollOuts s ops).filter (fun o => o.any (fun c => c.id == id))).length ≤ 1 := by
  intro ops
  induction ops with
  | nil => intro s _; simp [pollOuts]
  | cons op ops ih =>
    intro s hinv
    cases op with
    | poll =>
      simp only [pollOuts]
      rw [List.filter_cons]
      cases hout : ((pollEndpoint s).1.any (fun c => c.id == id)) with
      | false =>
        simp only [Bool.false_eq_true, if_false]
        exact ih _ (queueInv_applyOp s Op.poll hinv)
      | true =>
        rcases List.any_eq_true.1 hout with ⟨c', hc', hcid⟩
        rcases pollOut_from_pending s c' hc' with ⟨c, hcmem, hcp, rfl⟩
        have hid : id ≤ s.commandIdCounter := by
          have hmem : c.id ∈ queueIds s := List.mem_map_of_mem _ hcmem
          have hb := hinv.2 c.id hmem
          have hce : c.id = id := by simpa using hcid
          omega
        have hrest := pollOuts_noPending id ops _ (noPending_after_poll s id hid)
        simp [hrest]
    | enqueue tool args =>
      simp only [pollOuts]
      exact ih _ (queueInv_applyOp s _ hinv)
    | resolveOp i r e =>
      simp only [pollOuts]
      exact ih _ (queueInv_applyOp s _ hinv)
    | waitTickOp i t =>
      simp only [pollOuts]
      exact ih _ (queueInv_applyOp s _ hinv)

lemma pollOut_sorted (s : RelayState) (hinv : QueueInv s) :
    List.Pairwise (fun a b => a.id < b.id) (pollEndpoint s).1 := by
  have hpw : List.Pairwise (· < ·) ((pollEndpoint s).1.map (fun c => c.id)) := by
    have hsub : List.Sublist
        ((s.commandQueue.filter (fun c => decide (c.status = Status.pending))).map
          (fun c => c.id))
        (queueIds s) :=
      (List.filter_sublist _).map _
    have heq : (pollEndpoint s).1.map (fun c => c.id)
        = (s.commandQueue.filter (fun c => decide (c.status = Status.pending))).map
            (fun c => c.id) := by
      have hq : (pollEndpoint s).1
          = (s.commandQueue.filter (fun c => decide (c.status = Status.pending))).map
              (fun c => { c with status := Status.sent }) := rfl
      rw [hq, List.map_map]
      rfl
    rw [heq]
    exact hinv.1.sublist hsub
  exact List.pairwise_map.1 hpw

lemma pollOuts_sorted (ops : List Op) :
    ∀ s : RelayState, QueueInv s →
      ∀ out ∈ pollOuts s ops, List.Pairwise (fun a b => a.id < b.id) out := by
  induction ops with
  | nil => intro s _ out hout; simp [pollOuts] at hout
  | cons op ops ih =>
    intro s hinv out hout
    cases op with
    | poll =>
      simp only [pollOuts, List.mem_cons] at hout
      rcases hout with rfl | hout
      · exact pollOut_sorted s hinv
      · exact ih _ (queueInv_applyOp s Op.poll hinv) out hout
    | enqueue tool args =>
      simp only [pollOuts] at hout
      exact ih _ (queueInv_applyOp s _ hinv) out hout
    | resolveOp i r e =>
      simp only [pollOuts] at hout
      exact ih _ (queueInv_applyOp s _ hinv) out hout
    | waitTickOp i t =>
      simp only [pollOuts] at hout
      exact ih _ (queueInv_applyOp s _ hinv) out hout

/-- C3: along any trace of relay operations from a well-formed state, a
given command id appears in at most one poll response; a record that is
pending at the moment of a poll is returned (as its `sent` version) by that
very poll; every returned record stems from a record that was pending at
call time (so `sent` and `done` records are never returned); and each poll
response lists records in strictly increasing id order, which is creation
order. -/
theorem C3_claim_pending_exactly_once (s0 : RelayState) (ops : List Op)
    (id : Nat) (hinv : QueueInv s0) :
    ((pollOuts s0 ops).filter (fun o => o.any (fun c => c.id == id))).length ≤ 1
    ∧ (∀ out ∈ pollOuts s0 ops, List.Pairwise (fun a b => a.id < b.id) out)
    ∧ (∀ s : RelayState, ∀ c ∈ s.commandQueue, c.status = Status.pending →
        { c with status := Status.sent } ∈ (pollEndpoint s).1)
    ∧ (∀ s : RelayState, ∀ c' ∈ (pollEndpoint s).1,
        ∃ c ∈ s.commandQueue, c.status = Status.pending
          ∧ c' = { c with status := Status.sent }) :=
  ⟨pollOuts_atMostOnce id ops s0 hinv, pollOuts_sorted ops s0 hinv,
   fun s => pending_in_pollOut s, fun s => pollOut_from_pending s⟩

theorem C3_witness :
    ((pollOuts wPending [Op.poll]).filter
        (fun o => o.any (fun c => c.id == 1))).length ≤ 1
    ∧ { (⟨1, runScriptTool, JSVal.null, Status.pending, JSVal.null⟩ : Command) with
          status := Status.sent } ∈ (pollEndpoint wPending).1 := by
  have h := C3_claim_pending_exactly_once wPending [Op.poll] 1
    ⟨by simp [queueIds, wPending], by simp [queueIds, wPending]⟩
  exact ⟨h.1, h.2.2.1 wPending
    ⟨1, runScriptTool, JSVal.null, Status.pending, JSVal.null⟩
    (List.mem_cons_self _ _) rfl⟩
